import Mathlib

/-!
Shallow embedding of the docking-layout engine of jakesee/doclab
(`useDockManager` hook and the duplicate `CDockManager` static class).

The engine maintains a binary tree of `CDockSplitter` / `CDockPanel` nodes;
panels hold an ordered list of `CDockForm` values.  The source mutates the
tree in place; here every mutating step is modelled by a function that
returns the updated root.  The in-place pointer rewrites of the source
(`parent.primary = x`, `parent.secondary = x`, root reassignment) all act on
the node found by `_findLayoutItem`, i.e. on the first node in traversal
order whose id matches; they are modelled by `substFirst`, which rewrites
exactly that node.  On trees whose node ids are unique (invariant 2 of the
data model, maintained by the id factory) this coincides with the source's
heap mutation.
-/

namespace Doclab

/-- Id prefixes used by the id factory `_hash`: `dmf` for forms, `dmp` for
panels, `dms` for splitters. -/
inductive IdKind where
  | dmf | dmp | dms
deriving DecidableEq, Repr

/-- A node id `${prefix}-${n}`.  The three prefixes are fixed distinct
strings and `n` is decimal, so the string is uniquely determined by the
pair (kind, number) and equality of the strings is equality of the pairs. -/
structure NodeId where
  kind : IdKind
  num : Nat
deriving DecidableEq, Repr

/-- models `_hash(prefix)`, which increments the shared counter and returns
`${prefix}-${counter}`; returns the fresh id together with the new counter. -/
def hashId (k : IdKind) (counter : Nat) : NodeId × Nat :=
  (⟨k, counter + 1⟩, counter + 1)

/-- `CDockForm`: id and title.  The `children` and `icon` attributes are
opaque UI payloads (ReactNode) that the engine never inspects; they are not
modelled. -/
structure CDockForm where
  id : NodeId
  title : String
deriving DecidableEq, Repr

/-- `DockLayoutDirection`. -/
inductive DockLayoutDirection where
  | Horizontal | Vertical
deriving DecidableEq, Repr

/-- `CDockLayoutItem` with its two variants `CDockPanel` (ordered list of
forms) and `CDockSplitter` (two children, direction, size). -/
inductive CDockLayoutItem where
  | panel (id : NodeId) (forms : List CDockForm)
  | splitter (id : NodeId) (primary secondary : CDockLayoutItem)
      (direction : DockLayoutDirection) (size : Nat)
deriving DecidableEq, Repr

namespace CDockLayoutItem

/-- the `id` attribute shared by both variants. -/
def idOf : CDockLayoutItem → NodeId
  | panel i _ => i
  | splitter i _ _ _ _ => i

/-- the `forms` attribute of a panel (a splitter has none). -/
def formsOf : CDockLayoutItem → List CDockForm
  | panel _ fs => fs
  | splitter _ _ _ _ _ => []

/-- `item.type === DockLayoutItemType.Splitter`. -/
def isSplitter : CDockLayoutItem → Bool
  | splitter _ _ _ _ _ => true
  | panel _ _ => false

/-- `item.type === DockLayoutItemType.Panel && item.forms.length === 0`:
the test both empty-space checks of `_occupyFreeSpace` perform. -/
def isEmptyPanel : CDockLayoutItem → Bool
  | panel _ [] => true
  | _ => false

end CDockLayoutItem

open CDockLayoutItem

/-- all node ids of the tree in the traversal order of `_findLayoutItem`
(node first, then primary subtree, then secondary subtree). -/
def idsOf : CDockLayoutItem → List NodeId
  | .panel i _ => [i]
  | .splitter i p s _ _ => i :: (idsOf p ++ idsOf s)

/-- all forms of the tree, flattened in traversal order. -/
def formsFlat : CDockLayoutItem → List CDockForm
  | .panel _ fs => fs
  | .splitter _ p s _ _ => formsFlat p ++ formsFlat s

/-- all panels of the tree (id and form list), in traversal order. -/
def panelsOf : CDockLayoutItem → List (NodeId × List CDockForm)
  | .panel i fs => [(i, fs)]
  | .splitter _ p s _ _ => panelsOf p ++ panelsOf s

/-- `_findForm(formId, layoutItem)`: depth-first, primary before secondary;
returns the first matching form together with its owning panel. -/
def findForm : CDockLayoutItem → NodeId → Option (CDockForm × CDockLayoutItem)
  | t@(.panel _ fs), fid =>
    match fs.find? (fun g => decide (g.id = fid)) with
    | some f => some (f, t)
    | none => none
  | .splitter _ p s _ _, fid =>
    match findForm p fid with
    | some r => some r
    | none => findForm s fid

/-- `_findLayoutItem(searchId, layoutItem, ...)`: the node itself first,
then the primary subtree, then the secondary subtree.  The source also
returns the parent and grandparent splitters; the callers only use them to
rewrite the parent's child slot, which is modelled by `substFirst`. -/
def findLayoutItem : CDockLayoutItem → NodeId → Option CDockLayoutItem
  | t@(.panel i _), sid => if i = sid then some t else none
  | t@(.splitter i p s _ _), sid =>
    if i = sid then some t
    else
      match findLayoutItem p sid with
      | some u => some u
      | none => findLayoutItem s sid

/-- replaces the first node (in `_findLayoutItem` order) whose id is `sid`
by `v`; models the source's in-place pointer rewrite of the parent's
`primary`/`secondary` slot (or of the root variable when the node is the
root).  Leaves the tree unchanged when no node matches. -/
def substFirst : CDockLayoutItem → NodeId → CDockLayoutItem → CDockLayoutItem
  | t@(.panel i _), sid, v => if i = sid then v else t
  | t@(.splitter i p s d z), sid, v =>
    if i = sid then v
    else if (findLayoutItem p sid).isSome then .splitter i (substFirst p sid v) s d z
    else if (findLayoutItem s sid).isSome then .splitter i p (substFirst s sid v) d z
    else t

/-- `_replace(root, remove, replace)`: locates `remove.id` in `root`; when
it is found under a parent the parent's slot is rewritten, when it is the
root (or absent) the replacement itself is returned as the new root. -/
def replaceItem (root : CDockLayoutItem) (removeId : NodeId)
    (repl : CDockLayoutItem) : CDockLayoutItem :=
  match findLayoutItem root removeId with
  | some _ => substFirst root removeId repl
  | none => repl

/-- removes the first form with the given id from a panel, as
`forms.findIndex(f => f.id === formId); forms.splice(index, 1)` does.  (The
callers only invoke this on the panel `_findForm` returned, so the
`findIndex` miss case, where `splice(-1, 1)` would drop the last element,
is unreachable.) -/
def erasePanelForm : CDockLayoutItem → NodeId → CDockLayoutItem
  | .panel i fs, fid => .panel i (fs.eraseP (fun g => decide (g.id = fid)))
  | t, _ => t

/-- `_occupyFreeSpace(root, start)`: post-order free-space reclamation.
For a splitter it first recurses into each child that is itself a splitter
(the source relies on in-place mutation there and discards the returned
root; the model threads the updated root instead), then re-reads the
current children of this splitter (the source reads the mutated
`splitter.primary`/`secondary` fields; the model re-locates the node by id,
which coincides on unique-id trees) and, primary first, replaces the whole
splitter by the sibling of an empty panel child via `_replace`. -/
def occupyFreeSpace : CDockLayoutItem → CDockLayoutItem → CDockLayoutItem
  | root, .panel _ _ => root
  | root, .splitter sid p s _ _ =>
    let root1 := if p.isSplitter then occupyFreeSpace root p else root
    let root2 := if s.isSplitter then occupyFreeSpace root1 s else root1
    match findLayoutItem root2 sid with
    | some (.splitter _ p2 s2 _ _) =>
      if p2.isEmptyPanel then replaceItem root2 sid s2
      else if s2.isEmptyPanel then replaceItem root2 sid p2
      else root2
    | _ => root2

/-- the state of the `useDockManager` store: the current layout tree and
the id counter. -/
structure DockState where
  layout : CDockLayoutItem
  counter : Nat
deriving DecidableEq, Repr

/-- the initial store state: `useState(createPanel([]))` allocates `dmp-1`
and leaves the counter at 1. -/
def initState : DockState := ⟨.panel ⟨.dmp, 1⟩ [], 1⟩

/-- `clone` of the hook: `JSON.parse(JSON.stringify(layout))`.  On the
engine's serializable data (ids, titles, form order, direction, size) the
JSON round trip rebuilds the same values, i.e. it is the identity on the
modelled tree; the copy shares no references with the original. -/
def clone (layout : CDockLayoutItem) : CDockLayoutItem := layout

/-- `createSplitter(primary, secondary, direction = Horizontal, size = 50)`
of the hook and of `CDockManager`: allocates `dms-${counter+1}` and returns
the splitter; there is no validation of any kind. -/
def createSplitter (counter : Nat) (primary secondary : CDockLayoutItem)
    (direction : DockLayoutDirection := .Horizontal) (size : Nat := 50) :
    CDockLayoutItem × Nat :=
  let h := hashId .dms counter
  (.splitter h.1 primary secondary direction size, h.2)

/-- `split(formId, destPanelId, direction)` of the hook: find the form and
its panel; if the form's panel is the destination and holds at most one
form, do nothing; otherwise remove the form from its panel, locate the
destination, graft a new splitter (destination as primary, a fresh panel
holding the moved form as secondary, size 50) at the destination's former
position, and run free-space reclamation.  When the destination id does not
resolve the removal is not undone; reclamation still runs. -/
def split (st : DockState) (formId destPanelId : NodeId)
    (direction : DockLayoutDirection) : DockState :=
  match findForm st.layout formId with
  | none => st
  | some (f, p) =>
    if idOf p = destPanelId ∧ (formsOf p).length ≤ 1 then st
    else
      let layout1 := substFirst st.layout (idOf p) (erasePanelForm p formId)
      match findLayoutItem layout1 destPanelId with
      | none => ⟨occupyFreeSpace layout1 layout1, st.counter⟩
      | some dest =>
        let hp := hashId .dmp st.counter
        let newPanel : CDockLayoutItem := .panel hp.1 [f]
        let hs := hashId .dms hp.2
        let newSplitter : CDockLayoutItem := .splitter hs.1 dest newPanel direction 50
        let layout2 := substFirst layout1 destPanelId newSplitter
        ⟨occupyFreeSpace layout2 layout2, hs.2⟩

/-- `stack(formId, panelId)` of the hook: find the form, remove it from its
panel, locate the destination in the (already spliced) tree, push the form
onto the destination panel's form list and run free-space reclamation.
When the form id does not resolve nothing happens; when the form resolved
but the destination id does not, the spliced tree is published as is (the
form is dropped, no reclamation).  When the destination id resolves to a
splitter the source crashes on `destination.forms.push` (undefined has no
`push`); that outcome is `none`. -/
def stack (st : DockState) (formId panelId : NodeId) : Option DockState :=
  match findForm st.layout formId with
  | none => some ⟨st.layout, st.counter⟩
  | some (f, p) =>
    let layout1 := substFirst st.layout (idOf p) (erasePanelForm p formId)
    match findLayoutItem layout1 panelId with
    | some (.panel pid fs) =>
      let layout2 := substFirst layout1 pid (.panel pid (fs ++ [f]))
      some ⟨occupyFreeSpace layout2 layout2, st.counter⟩
    | some (.splitter _ _ _ _ _) => none
    | none => some ⟨layout1, st.counter⟩

/-- `CDockManager.clone` (the static duplicate of the engine): it logs
`JSON.stringify(layout)` and returns `JSON.parse('{}')`, i.e. an empty
object with no `id`, `type` or `forms` fields, which is not a valid
`CDockLayoutItem`; the result is modelled as `none`. -/
def staticClone (_layout : CDockLayoutItem) : Option CDockLayoutItem := none

end Doclab

namespace Doclab

open CDockLayoutItem

/-- `Sub u t`: `u` occurs as a subtree of `t`. -/
inductive Sub : CDockLayoutItem → CDockLayoutItem → Prop
  | refl (t) : Sub t t
  | inPrimary {u p s} (i : NodeId) (d : DockLayoutDirection) (z : Nat) :
      Sub u p → Sub u (.splitter i p s d z)
  | inSecondary {u p s} (i : NodeId) (d : DockLayoutDirection) (z : Nat) :
      Sub u s → Sub u (.splitter i p s d z)

theorem Sub.trans {a b c : CDockLayoutItem} (h1 : Sub a b) (h2 : Sub b c) : Sub a c := by
  induction h2 with
  | refl => exact h1
  | inPrimary i d z _ ih => exact Sub.inPrimary i d z ih
  | inSecondary i d z _ ih => exact Sub.inSecondary i d z ih

theorem idOf_mem_idsOf (t : CDockLayoutItem) : idOf t ∈ idsOf t := by
  cases t <;> simp [idOf, idsOf]

theorem sub_ids_sublist {u t : CDockLayoutItem} (h : Sub u t) :
    List.Sublist (idsOf u) (idsOf t) := by
  induction h with
  | refl => exact List.Sublist.refl _
  | inPrimary i d z _ ih =>
    exact ih.trans ((List.sublist_append_left _ _).trans (List.sublist_cons_self _ _))
  | inSecondary i d z _ ih =>
    exact ih.trans ((List.sublist_append_right _ _).trans (List.sublist_cons_self _ _))

theorem nodup_of_sub {u t : CDockLayoutItem} (h : Sub u t)
    (hN : (idsOf t).Nodup) : (idsOf u).Nodup :=
  (sub_ids_sublist h).nodup hN

theorem sub_id_mem {u t : CDockLayoutItem} (h : Sub u t) : idOf u ∈ idsOf t :=
  (sub_ids_sublist h).subset (idOf_mem_idsOf u)

theorem findLayoutItem_isSome_iff (t : CDockLayoutItem) (i : NodeId) :
    (findLayoutItem t i).isSome = true ↔ i ∈ idsOf t := by
  induction t with
  | panel pid fs =>
    by_cases h : pid = i
    · simp [findLayoutItem, idsOf, h]
    · simp [findLayoutItem, idsOf, h, Ne.symm h]
  | splitter sid p s d z ihp ihs =>
    by_cases h : sid = i
    · simp [findLayoutItem, idsOf, h]
    · simp only [findLayoutItem, if_neg h, idsOf, List.mem_cons, List.mem_append]
      cases hp : findLayoutItem p i with
      | some u =>
        have : i ∈ idsOf p := ihp.mp (by simp [hp])
        simp [this, Ne.symm h]
      | none =>
        have hnp : ¬ i ∈ idsOf p := fun hm => by
          have := ihp.mpr hm; simp [hp] at this
        simpa [Ne.symm h, hnp] using ihs

theorem findLayoutItem_eq_none_iff (t : CDockLayoutItem) (i : NodeId) :
    findLayoutItem t i = none ↔ ¬ i ∈ idsOf t := by
  rw [← findLayoutItem_isSome_iff]
  cases findLayoutItem t i <;> simp

theorem findLayoutItem_idOf (t : CDockLayoutItem) :
    findLayoutItem t (idOf t) = some t := by
  cases t <;> simp [findLayoutItem, idOf]

theorem substFirst_idOf (t v : CDockLayoutItem) :
    substFirst t (idOf t) v = v := by
  cases t <;> simp [substFirst, idOf]

theorem findLayoutItem_some_sub {t u : CDockLayoutItem} {i : NodeId}
    (h : findLayoutItem t i = some u) : Sub u t := by
  induction t with
  | panel pid fs =>
    simp only [findLayoutItem] at h
    split at h
    · cases h; exact Sub.refl _
    · cases h
  | splitter sid p s d z ihp ihs =>
    simp only [findLayoutItem] at h
    split at h
    · cases h; exact Sub.refl _
    · cases hp : findLayoutItem p i with
      | some w => rw [hp] at h; cases h; exact Sub.inPrimary _ _ _ (ihp hp)
      | none => rw [hp] at h; exact Sub.inSecondary _ _ _ (ihs h)

theorem findLayoutItem_some_id {t u : CDockLayoutItem} {i : NodeId}
    (h : findLayoutItem t i = some u) : idOf u = i := by
  induction t with
  | panel pid fs =>
    simp only [findLayoutItem] at h
    split at h
    · cases h; simpa [idOf]
    · cases h
  | splitter sid p s d z ihp ihs =>
    simp only [findLayoutItem] at h
    split at h
    · cases h; simpa [idOf]
    · cases hp : findLayoutItem p i with
      | some w => rw [hp] at h; cases h; exact ihp hp
      | none => rw [hp] at h; exact ihs h

theorem find_of_sub {u t : CDockLayoutItem} (hN : (idsOf t).Nodup)
    (h : Sub u t) : findLayoutItem t (idOf u) = some u := by
  induction t with
  | panel pid fs =>
    cases h with
    | refl => exact findLayoutItem_idOf _
  | splitter sid p s d z ihp ihs =>
    have hN' := hN
    simp only [idsOf, List.nodup_cons, List.nodup_append, List.mem_append] at hN'
    obtain ⟨hsid, hNp, hNs, hdisj⟩ := hN'
    cases h with
    | refl => exact findLayoutItem_idOf _
    | inPrimary _ _ _ hu =>
      have hmem : idOf u ∈ idsOf p := sub_id_mem hu
      have hne : sid ≠ idOf u := fun he => hsid (Or.inl (he ▸ hmem))
      simp only [findLayoutItem, if_neg hne, ihp hNp hu]
    | inSecondary _ _ _ hu =>
      have hmem : idOf u ∈ idsOf s := sub_id_mem hu
      have hne : sid ≠ idOf u := fun he => hsid (Or.inr (he ▸ hmem))
      have hnotp : findLayoutItem p (idOf u) = none :=
        (findLayoutItem_eq_none_iff _ _).mpr (fun hm => hdisj hm hmem)
      simp only [findLayoutItem, if_neg hne, hnotp, ihs hNs hu]

end Doclab

namespace Doclab

open CDockLayoutItem

theorem substFirst_splitter_primary {sid i : NodeId} {p s v : CDockLayoutItem}
    {d : DockLayoutDirection} {z : Nat} (hne : ¬ sid = i)
    (hp : (findLayoutItem p i).isSome) :
    substFirst (.splitter sid p s d z) i v = .splitter sid (substFirst p i v) s d z := by
  simp [substFirst, hne, hp]

theorem substFirst_splitter_secondary {sid i : NodeId} {p s v : CDockLayoutItem}
    {d : DockLayoutDirection} {z : Nat} (hne : ¬ sid = i)
    (hp : findLayoutItem p i = none) (hs : (findLayoutItem s i).isSome) :
    substFirst (.splitter sid p s d z) i v = .splitter sid p (substFirst s i v) d z := by
  simp [substFirst, hne, hp, hs]

theorem findLayoutItem_splitter_primary {sid i : NodeId} {p s u : CDockLayoutItem}
    {d : DockLayoutDirection} {z : Nat} (hne : ¬ sid = i)
    (hp : findLayoutItem p i = some u) :
    findLayoutItem (.splitter sid p s d z) i = some u := by
  simp [findLayoutItem, hne, hp]

theorem findLayoutItem_splitter_secondary {sid i : NodeId} {p s : CDockLayoutItem}
    {d : DockLayoutDirection} {z : Nat} (hne : ¬ sid = i)
    (hp : findLayoutItem p i = none) :
    findLayoutItem (.splitter sid p s d z) i = findLayoutItem s i := by
  simp [findLayoutItem, hne, hp]

/-- case analysis for a successful search in a splitter. -/
theorem findLayoutItem_splitter_cases {sid i : NodeId} {p s u : CDockLayoutItem}
    {d : DockLayoutDirection} {z : Nat}
    (h : findLayoutItem (.splitter sid p s d z) i = some u) :
    (sid = i ∧ u = .splitter sid p s d z) ∨
    (¬ sid = i ∧ findLayoutItem p i = some u) ∨
    (¬ sid = i ∧ findLayoutItem p i = none ∧ findLayoutItem s i = some u) := by
  by_cases he : sid = i
  · simp only [findLayoutItem, if_pos he] at h
    exact Or.inl ⟨he, (Option.some_inj.mp h).symm⟩
  · simp only [findLayoutItem, if_neg he] at h
    cases hp : findLayoutItem p i with
    | some w =>
      rw [hp] at h
      injection h with h2
      exact Or.inr (Or.inl ⟨he, by rw [h2]⟩)
    | none =>
      rw [hp] at h
      exact Or.inr (Or.inr ⟨he, rfl, h⟩)

theorem substFirst_self {t u : CDockLayoutItem} {i : NodeId}
    (h : findLayoutItem t i = some u) : substFirst t i u = t := by
  induction t with
  | panel pid fs =>
    by_cases hpi : pid = i
    · simp only [findLayoutItem, if_pos hpi] at h
      rw [← Option.some_inj.mp h]
      simp [substFirst, hpi]
    · simp [findLayoutItem, hpi] at h
  | splitter sid p s d z ihp ihs =>
    rcases findLayoutItem_splitter_cases h with ⟨he, hu⟩ | ⟨he, hp⟩ | ⟨he, hp, hs⟩
    · subst hu; simp [substFirst, he]
    · rw [substFirst_splitter_primary he (by simp [hp]), ihp hp]
    · rw [substFirst_splitter_secondary he hp (by simp [hs]), ihs hs]

theorem sub_substFirst {t u v : CDockLayoutItem} {i : NodeId}
    (h : findLayoutItem t i = some u) : Sub v (substFirst t i v) := by
  induction t with
  | panel pid fs =>
    simp only [findLayoutItem] at h
    split at h
    · simp_all [substFirst]; exact Sub.refl _
    · cases h
  | splitter sid p s d z ihp ihs =>
    rcases findLayoutItem_splitter_cases h with ⟨he, hu⟩ | ⟨he, hp⟩ | ⟨he, hp, hs⟩
    · simp [substFirst, he]; exact Sub.refl _
    · rw [substFirst_splitter_primary he (by simp [hp])]
      exact Sub.inPrimary _ _ _ (ihp hp)
    · rw [substFirst_splitter_secondary he hp (by simp [hs])]
      exact Sub.inSecondary _ _ _ (ihs hs)

theorem find_substFirst_same {t u v : CDockLayoutItem} {i : NodeId}
    (h : findLayoutItem t i = some u) (hv : idOf v = i) :
    findLayoutItem (substFirst t i v) i = some v := by
  induction t with
  | panel pid fs =>
    by_cases hpi : pid = i
    · have h1 : substFirst (CDockLayoutItem.panel pid fs) i v = v := by
        simp [substFirst, hpi]
      rw [h1, ← hv]
      exact findLayoutItem_idOf v
    · simp [findLayoutItem, hpi] at h
  | splitter sid p s d z ihp ihs =>
    rcases findLayoutItem_splitter_cases h with ⟨he, hu⟩ | ⟨he, hp⟩ | ⟨he, hp, hs⟩
    · have h1 : substFirst (CDockLayoutItem.splitter sid p s d z) i v = v := by
        simp [substFirst, he]
      rw [h1, ← hv]
      exact findLayoutItem_idOf v
    · rw [substFirst_splitter_primary he (by simp [hp])]
      exact findLayoutItem_splitter_primary he (ihp hp)
    · rw [substFirst_splitter_secondary he hp (by simp [hs])]
      rw [findLayoutItem_splitter_secondary he hp]
      exact ihs hs

theorem substFirst_ids_eq {t u v : CDockLayoutItem} {i : NodeId}
    (h : findLayoutItem t i = some u) (hv : idsOf v = idsOf u) :
    idsOf (substFirst t i v) = idsOf t := by
  induction t with
  | panel pid fs =>
    simp only [findLayoutItem] at h
    split at h
    · cases h; simp [substFirst, *, hv]
    · cases h
  | splitter sid p s d z ihp ihs =>
    rcases findLayoutItem_splitter_cases h with ⟨he, hu⟩ | ⟨he, hp⟩ | ⟨he, hp, hs⟩
    · subst hu; simp [substFirst, he, hv]
    · rw [substFirst_splitter_primary he (by simp [hp])]
      simp [idsOf, ihp hp]
    · rw [substFirst_splitter_secondary he hp (by simp [hs])]
      simp [idsOf, ihs hs]

end Doclab

namespace Doclab

open CDockLayoutItem

theorem substFirst_nodup {t u v : CDockLayoutItem} {i : NodeId}
    (hN : (idsOf t).Nodup) (h : findLayoutItem t i = some u)
    (hvN : (idsOf v).Nodup)
    (hrange : ∀ x ∈ idsOf v, x ∈ idsOf u ∨ ¬ x ∈ idsOf t) :
    (idsOf (substFirst t i v)).Nodup ∧
      ∀ x ∈ idsOf (substFirst t i v), x ∈ idsOf t ∨ x ∈ idsOf v := by
  induction t with
  | panel pid fs =>
    by_cases hpi : pid = i
    · have h1 : substFirst (CDockLayoutItem.panel pid fs) i v = v := by
        simp [substFirst, hpi]
      rw [h1]
      exact ⟨hvN, fun x hx => Or.inr hx⟩
    · simp [findLayoutItem, hpi] at h
  | splitter sid p s d z ihp ihs =>
    have hN' := hN
    simp only [idsOf, List.nodup_cons, List.nodup_append, List.mem_append] at hN'
    obtain ⟨hsid, hNp, hNs, hdisj⟩ := hN'
    rcases findLayoutItem_splitter_cases h with ⟨he, hu⟩ | ⟨he, hp⟩ | ⟨he, hp, hs⟩
    · have h1 : substFirst (CDockLayoutItem.splitter sid p s d z) i v = v := by
        simp [substFirst, he]
      rw [h1]
      exact ⟨hvN, fun x hx => Or.inr hx⟩
    · have hup : ∀ x ∈ idsOf u, x ∈ idsOf p :=
        fun x hx => (sub_ids_sublist (findLayoutItem_some_sub hp)).subset hx
      have hrange' : ∀ x ∈ idsOf v, x ∈ idsOf u ∨ ¬ x ∈ idsOf p := by
        intro x hx
        rcases hrange x hx with hxu | hxt
        · exact Or.inl hxu
        · refine Or.inr fun hxp => hxt ?_
          simp only [idsOf, List.mem_cons, List.mem_append]
          exact Or.inr (Or.inl hxp)
      obtain ⟨hN1, hR1⟩ := ihp hNp hp hrange'
      rw [substFirst_splitter_primary he (by simp [hp])]
      constructor
      · simp only [idsOf, List.nodup_cons, List.nodup_append, List.mem_append]
        refine ⟨?_, hN1, hNs, ?_⟩
        · rintro (hc | hc)
          · rcases hR1 sid hc with hcp | hcv
            · exact hsid (Or.inl hcp)
            · rcases hrange sid hcv with hcu | hct
              · exact hsid (Or.inl (hup sid hcu))
              · exact hct (by simp [idsOf])
          · exact hsid (Or.inr hc)
        · intro x hx hxs
          rcases hR1 x hx with hxp | hxv
          · exact hdisj hxp hxs
          · rcases hrange x hxv with hxu | hxt
            · exact hdisj (hup x hxu) hxs
            · refine hxt ?_
              simp only [idsOf, List.mem_cons, List.mem_append]
              exact Or.inr (Or.inr hxs)
      · intro x hx
        simp only [idsOf, List.mem_cons, List.mem_append] at hx ⊢
        rcases hx with rfl | hx | hx
        · exact Or.inl (Or.inl rfl)
        · rcases hR1 x hx with h1 | h2
          · exact Or.inl (Or.inr (Or.inl h1))
          · exact Or.inr h2
        · exact Or.inl (Or.inr (Or.inr hx))
    · have hus : ∀ x ∈ idsOf u, x ∈ idsOf s :=
        fun x hx => (sub_ids_sublist (findLayoutItem_some_sub hs)).subset hx
      have hrange' : ∀ x ∈ idsOf v, x ∈ idsOf u ∨ ¬ x ∈ idsOf s := by
        intro x hx
        rcases hrange x hx with hxu | hxt
        · exact Or.inl hxu
        · refine Or.inr fun hxs => hxt ?_
          simp only [idsOf, List.mem_cons, List.mem_append]
          exact Or.inr (Or.inr hxs)
      obtain ⟨hN1, hR1⟩ := ihs hNs hs hrange'
      rw [substFirst_splitter_secondary he hp (by simp [hs])]
      constructor
      · simp only [idsOf, List.nodup_cons, List.nodup_append, List.mem_append]
        refine ⟨?_, hNp, hN1, ?_⟩
        · rintro (hc | hc)
          · exact hsid (Or.inl hc)
          · rcases hR1 sid hc with hcs | hcv
            · exact hsid (Or.inr hcs)
            · rcases hrange sid hcv with hcu | hct
              · exact hsid (Or.inr (hus sid hcu))
              · exact hct (by simp [idsOf])
        · intro x hx hxs
          rcases hR1 x hxs with hxs' | hxv
          · exact hdisj hx hxs'
          · rcases hrange x hxv with hxu | hxt
            · exact hdisj hx (hus x hxu)
            · refine hxt ?_
              simp only [idsOf, List.mem_cons, List.mem_append]
              exact Or.inr (Or.inl hx)
      · intro x hx
        simp only [idsOf, List.mem_cons, List.mem_append] at hx ⊢
        rcases hx with rfl | hx | hx
        · exact Or.inl (Or.inl rfl)
        · exact Or.inl (Or.inr (Or.inl hx))
        · rcases hR1 x hx with h1 | h2
          · exact Or.inl (Or.inr (Or.inr h1))
          · exact Or.inr h2

end Doclab

namespace Doclab

open CDockLayoutItem

/-- rewriting the contents of one panel leaves the lookup of any other
panel unchanged (the node ids of the tree do not move). -/
theorem find_substFirst_panel {t : CDockLayoutItem} {i j : NodeId}
    {fs fs2 gs : List CDockForm}
    (h : findLayoutItem t i = some (.panel i fs)) (hj : ¬ j = i)
    (hg : findLayoutItem t j = some (.panel j gs)) :
    findLayoutItem (substFirst t i (.panel i fs2)) j = some (.panel j gs) := by
  induction t with
  | panel pid fs0 =>
    by_cases hpi : pid = i
    · subst hpi
      simp [findLayoutItem, Ne.symm hj] at hg
    · simp [findLayoutItem, hpi] at h
  | splitter sid p s d z ihp ihs =>
    rcases findLayoutItem_splitter_cases h with ⟨he, hu⟩ | ⟨he, hp⟩ | ⟨he, hp, hs⟩
    · exact absurd hu (by simp)
    · rw [substFirst_splitter_primary he (by simp [hp])]
      rcases findLayoutItem_splitter_cases hg with ⟨he2, hu2⟩ | ⟨he2, hgp⟩ | ⟨he2, hgp, hgs⟩
      · exact absurd hu2 (by simp)
      · exact findLayoutItem_splitter_primary he2 (ihp hp hgp)
      · have hids : idsOf (substFirst p i (CDockLayoutItem.panel i fs2)) = idsOf p :=
          substFirst_ids_eq hp (by simp [idsOf])
        have hnone : findLayoutItem (substFirst p i (CDockLayoutItem.panel i fs2)) j = none := by
          rw [findLayoutItem_eq_none_iff, hids]
          exact (findLayoutItem_eq_none_iff p j).mp hgp
        rw [findLayoutItem_splitter_secondary he2 hnone]
        exact hgs
    · rw [substFirst_splitter_secondary he hp (by simp [hs])]
      rcases findLayoutItem_splitter_cases hg with ⟨he2, hu2⟩ | ⟨he2, hgp⟩ | ⟨he2, hgp, hgs⟩
      · exact absurd hu2 (by simp)
      · exact findLayoutItem_splitter_primary he2 hgp
      · rw [findLayoutItem_splitter_secondary he2 hgp]
        exact ihs hs hgs

/-- substituting at a node inside the subtree found at `i` factors through
a substitution of the whole subtree (on unique-id trees). -/
theorem substFirst_through {t u w : CDockLayoutItem} {i j : NodeId}
    (hN : (idsOf t).Nodup) (h : findLayoutItem t i = some u) (hj : j ∈ idsOf u) :
    substFirst t j w = substFirst t i (substFirst u j w) := by
  induction t with
  | panel pid fs =>
    by_cases hpi : pid = i
    · simp only [findLayoutItem, if_pos hpi] at h
      have hu : u = CDockLayoutItem.panel pid fs := (Option.some_inj.mp h).symm
      subst hu
      simp only [idsOf, List.mem_singleton] at hj
      subst hj
      simp [substFirst, hpi]
    · simp [findLayoutItem, hpi] at h
  | splitter sid p s d z ihp ihs =>
    have hN' := hN
    simp only [idsOf, List.nodup_cons, List.nodup_append, List.mem_append] at hN'
    obtain ⟨hsid, hNp, hNs, hdisj⟩ := hN'
    rcases findLayoutItem_splitter_cases h with ⟨he, hu⟩ | ⟨he, hp⟩ | ⟨he, hp, hs⟩
    · subst hu
      subst he
      have h1 : ∀ x : CDockLayoutItem,
          substFirst (CDockLayoutItem.splitter sid p s d z) sid x = x := by
        intro x; simp [substFirst]
      rw [h1]
    · have hup : ∀ x ∈ idsOf u, x ∈ idsOf p :=
        fun x hx => (sub_ids_sublist (findLayoutItem_some_sub hp)).subset hx
      have hjp : j ∈ idsOf p := hup j hj
      have hjne : ¬ sid = j := fun he2 => hsid (Or.inl (he2 ▸ hjp))
      have hjsome : (findLayoutItem p j).isSome := by
        rw [findLayoutItem_isSome_iff]; exact hjp
      rw [substFirst_splitter_primary hjne hjsome,
        substFirst_splitter_primary he (by simp [hp]),
        ihp hNp hp]
    · have hus : ∀ x ∈ idsOf u, x ∈ idsOf s :=
        fun x hx => (sub_ids_sublist (findLayoutItem_some_sub hs)).subset hx
      have hjs : j ∈ idsOf s := hus j hj
      have hjne : ¬ sid = j := fun he2 => hsid (Or.inr (he2 ▸ hjs))
      have hjpnone : findLayoutItem p j = none := by
        rw [findLayoutItem_eq_none_iff]
        exact fun hm => hdisj hm hjs
      have hjsome : (findLayoutItem s j).isSome := by
        rw [findLayoutItem_isSome_iff]; exact hjs
      rw [substFirst_splitter_secondary hjne hjpnone hjsome,
        substFirst_splitter_secondary he hp (by simp [hs]),
        ihs hNs hs]

/-- substituting twice at the same id (when the first substitution keeps
that id on the inserted node) is the same as substituting once. -/
theorem substFirst_substFirst {t u v w : CDockLayoutItem} {i : NodeId}
    (h : findLayoutItem t i = some u) (hv : idOf v = i) :
    substFirst (substFirst t i v) i w = substFirst t i w := by
  induction t with
  | panel pid fs =>
    by_cases hpi : pid = i
    · have h1 : substFirst (CDockLayoutItem.panel pid fs) i v = v := by
        simp [substFirst, hpi]
      rw [h1, ← hv, substFirst_idOf, hv]
      have h2 : substFirst (CDockLayoutItem.panel pid fs) i w = w := by
        simp [substFirst, hpi]
      rw [h2]
    · simp [findLayoutItem, hpi] at h
  | splitter sid p s d z ihp ihs =>
    rcases findLayoutItem_splitter_cases h with ⟨he, hu⟩ | ⟨he, hp⟩ | ⟨he, hp, hs⟩
    · have h1 : substFirst (CDockLayoutItem.splitter sid p s d z) i v = v := by
        simp [substFirst, he]
      rw [h1, ← hv, substFirst_idOf, hv]
      have h2 : substFirst (CDockLayoutItem.splitter sid p s d z) i w = w := by
        simp [substFirst, he]
      rw [h2]
    · rw [substFirst_splitter_primary he (by simp [hp])]
      have hfind : findLayoutItem (substFirst p i v) i = some v :=
        find_substFirst_same hp hv
      rw [substFirst_splitter_primary he (by simp [hfind]), ihp hp,
        substFirst_splitter_primary he (by simp [hp])]
    · rw [substFirst_splitter_secondary he hp (by simp [hs])]
      have hfind : findLayoutItem (substFirst s i v) i = some v :=
        find_substFirst_same hs hv
      rw [substFirst_splitter_secondary he hp (by simp [hfind]), ihs hs,
        substFirst_splitter_secondary he hp (by simp [hs])]

end Doclab

namespace Doclab

open CDockLayoutItem

/-- no splitter reachable in the tree has an empty panel as a child: this
is invariant 4 of the data model (an empty panel may only be the root). -/
def goodB : CDockLayoutItem → Bool
  | .panel _ _ => true
  | .splitter _ p s _ _ =>
    !p.isEmptyPanel && !s.isEmptyPanel && goodB p && goodB s

/-- no splitter has two children with the same id (invariant 3). -/
def noTwinB : CDockLayoutItem → Bool
  | .panel _ _ => true
  | .splitter _ p s _ _ => decide (¬ idOf p = idOf s) && noTwinB p && noTwinB s

/-- a pure structural characterization of one reclamation pass: collapse
every splitter one of whose (already collapsed) children is an empty panel
into the other child, primary child checked first.  Proven below to agree
with `occupyFreeSpace` on unique-id trees (`occupyFreeSpace_eq_reclaim`). -/
def reclaim : CDockLayoutItem → CDockLayoutItem
  | .panel i fs => .panel i fs
  | .splitter i p s d z =>
    let p2 := reclaim p
    let s2 := reclaim s
    if p2.isEmptyPanel then s2
    else if s2.isEmptyPanel then p2
    else .splitter i p2 s2 d z

theorem isEmptyPanel_formsFlat {t : CDockLayoutItem}
    (h : t.isEmptyPanel = true) : formsFlat t = [] := by
  cases t with
  | panel i fs => cases fs with
    | nil => simp [formsFlat]
    | cons a l => simp [isEmptyPanel] at h
  | splitter i p s d z => simp [isEmptyPanel] at h

theorem sub_panel_eq {u : CDockLayoutItem} {j : NodeId} {gs : List CDockForm}
    (h : Sub u (.panel j gs)) : u = .panel j gs := by
  cases h; rfl

theorem reclaim_ids_sublist (t : CDockLayoutItem) :
    List.Sublist (idsOf (reclaim t)) (idsOf t) := by
  induction t with
  | panel i fs => simp [reclaim]
  | splitter i p s d z ihp ihs =>
    simp only [reclaim]
    by_cases hp : (reclaim p).isEmptyPanel
    · simp only [hp, if_true]
      exact ihs.trans ((List.sublist_append_right _ _).trans (List.sublist_cons_self _ _))
    · by_cases hs : (reclaim s).isEmptyPanel
      · simp only [hp, hs, if_false, if_true]
        exact ihp.trans ((List.sublist_append_left _ _).trans (List.sublist_cons_self _ _))
      · simp only [hp, hs, if_false, idsOf]
        exact (ihp.append ihs).cons₂ i

theorem reclaim_nodup {t : CDockLayoutItem} (hN : (idsOf t).Nodup) :
    (idsOf (reclaim t)).Nodup :=
  (reclaim_ids_sublist t).nodup hN

theorem goodB_reclaim (t : CDockLayoutItem) : goodB (reclaim t) = true := by
  induction t with
  | panel i fs => simp [reclaim, goodB]
  | splitter i p s d z ihp ihs =>
    simp only [reclaim]
    by_cases hp : (reclaim p).isEmptyPanel
    · simp only [hp, if_true]; exact ihs
    · by_cases hs : (reclaim s).isEmptyPanel
      · simp only [hp, hs, if_false, if_true]; exact ihp
      · simp only [hp, hs, if_false, goodB]
        simp [hp, hs, ihp, ihs]

theorem reclaim_eq_self {t : CDockLayoutItem} (h : goodB t = true) :
    reclaim t = t := by
  induction t with
  | panel i fs => simp [reclaim]
  | splitter i p s d z ihp ihs =>
    simp only [goodB, Bool.and_eq_true, Bool.not_eq_true'] at h
    obtain ⟨⟨⟨hp, hs⟩, hgp⟩, hgs⟩ := h
    simp only [reclaim, ihp hgp, ihs hgs, hp, hs]
    simp [hp, hs]

theorem reclaim_formsFlat (t : CDockLayoutItem) :
    formsFlat (reclaim t) = formsFlat t := by
  induction t with
  | panel i fs => simp [reclaim]
  | splitter i p s d z ihp ihs =>
    simp only [reclaim]
    by_cases hp : (reclaim p).isEmptyPanel
    · rw [if_pos hp]
      have h0 : formsFlat p = [] := by
        rw [← ihp]; exact isEmptyPanel_formsFlat hp
      simp [formsFlat, h0, ihs]
    · rw [if_neg hp]
      by_cases hs : (reclaim s).isEmptyPanel
      · rw [if_pos hs]
        have h0 : formsFlat s = [] := by
          rw [← ihs]; exact isEmptyPanel_formsFlat hs
        simp [formsFlat, h0, ihp]
      · rw [if_neg hs]
        simp [formsFlat, ihp, ihs]

theorem reclaim_panelsOf_subset (t : CDockLayoutItem) :
    ∀ x ∈ panelsOf (reclaim t), x ∈ panelsOf t := by
  induction t with
  | panel i fs => simp [reclaim]
  | splitter i p s d z ihp ihs =>
    intro x hx
    simp only [reclaim] at hx
    simp only [panelsOf, List.mem_append]
    by_cases hp : (reclaim p).isEmptyPanel
    · rw [if_pos hp] at hx
      exact Or.inr (ihs x hx)
    · by_cases hs : (reclaim s).isEmptyPanel
      · rw [if_neg hp, if_pos hs] at hx
        exact Or.inl (ihp x hx)
      · rw [if_neg hp, if_neg hs] at hx
        simp only [panelsOf, List.mem_append] at hx
        rcases hx with hx | hx
        · exact Or.inl (ihp x hx)
        · exact Or.inr (ihs x hx)

theorem reclaim_sub_panel {t : CDockLayoutItem} {j : NodeId}
    {gs : List CDockForm} (h : Sub (.panel j gs) t) (hgs : gs ≠ []) :
    Sub (.panel j gs) (reclaim t) := by
  induction t with
  | panel i fs =>
    have := sub_panel_eq h
    rw [this] at h ⊢
    simpa [reclaim] using Sub.refl _
  | splitter i p s d z ihp ihs =>
    cases h with
    | inPrimary _ _ _ hu =>
      have hsubp := ihp hu
      simp only [reclaim]
      by_cases hp : (reclaim p).isEmptyPanel
      · exfalso
        cases hrp : reclaim p with
        | panel i2 fs2 =>
          rw [hrp] at hsubp
          have := sub_panel_eq hsubp
          rw [hrp] at hp
          cases fs2 with
          | nil => simp at this; exact hgs this.2
          | cons a l => simp [isEmptyPanel] at hp
        | splitter i2 p2 s2 d2 z2 =>
          rw [hrp] at hp; simp [isEmptyPanel] at hp
      · by_cases hs : (reclaim s).isEmptyPanel
        · simp only [hp, hs, if_false, if_true]
          exact hsubp
        · simp only [hp, hs, if_false]
          exact Sub.inPrimary _ _ _ hsubp
    | inSecondary _ _ _ hu =>
      have hsubs := ihs hu
      simp only [reclaim]
      by_cases hp : (reclaim p).isEmptyPanel
      · simp only [hp, if_true]
        exact hsubs
      · by_cases hs : (reclaim s).isEmptyPanel
        · exfalso
          cases hrs : reclaim s with
          | panel i2 fs2 =>
            rw [hrs] at hsubs
            have := sub_panel_eq hsubs
            rw [hrs] at hs
            cases fs2 with
            | nil => simp at this; exact hgs this.2
            | cons a l => simp [isEmptyPanel] at hs
          | splitter i2 p2 s2 d2 z2 =>
            rw [hrs] at hs; simp [isEmptyPanel] at hs
        · simp only [hp, hs, if_false]
          exact Sub.inSecondary _ _ _ hsubs

end Doclab

namespace Doclab

open CDockLayoutItem

theorem occupyFreeSpace_eq_reclaim (start : CDockLayoutItem) :
    ∀ root : CDockLayoutItem, (idsOf root).Nodup →
      findLayoutItem root (idOf start) = some start →
      occupyFreeSpace root start = substFirst root (idOf start) (reclaim start) := by
  induction start with
  | panel i fs =>
    intro root hN hf
    rw [occupyFreeSpace, reclaim]
    exact (substFirst_self hf).symm
  | splitter sid p s d z ihp ihs =>
    intro root hN hf
    simp only [idOf] at hf ⊢
    have hsub : Sub (CDockLayoutItem.splitter sid p s d z) root :=
      findLayoutItem_some_sub hf
    have hNt : (idsOf (CDockLayoutItem.splitter sid p s d z)).Nodup :=
      nodup_of_sub hsub hN
    have hNt' := hNt
    simp only [idsOf, List.nodup_cons, List.nodup_append, List.mem_append] at hNt'
    obtain ⟨hsid, hNp, hNs, hdisj⟩ := hNt'
    have hsubp : Sub p root :=
      Sub.trans (Sub.inPrimary sid d z (Sub.refl p)) hsub
    have hsubs : Sub s root :=
      Sub.trans (Sub.inSecondary sid d z (Sub.refl s)) hsub
    have hfp : findLayoutItem root (idOf p) = some p := find_of_sub hN hsubp
    have hnesidp : ¬ sid = idOf p :=
      fun he => hsid (Or.inl (he ▸ idOf_mem_idsOf p))
    have hnesids : ¬ sid = idOf s :=
      fun he => hsid (Or.inr (he ▸ idOf_mem_idsOf s))
    -- the first recursive call rewrites the primary subtree in place
    have hA : (if p.isSplitter then occupyFreeSpace root p else root) =
        substFirst root (idOf p) (reclaim p) := by
      cases p with
      | panel i2 fs2 =>
        simp only [isSplitter, if_neg]
        rw [reclaim]
        exact (substFirst_self hfp).symm
      | splitter i2 p2 s2 d2 z2 =>
        simp only [isSplitter, if_pos]
        exact ihp root hN hfp
    have hA2 : substFirst root (idOf p) (reclaim p) =
        substFirst root sid
          (substFirst (CDockLayoutItem.splitter sid p s d z) (idOf p) (reclaim p)) :=
      substFirst_through hN hf (by
        simp only [idsOf, List.mem_cons, List.mem_append]
        exact Or.inr (Or.inl (idOf_mem_idsOf p)))
    have hA3 : substFirst (CDockLayoutItem.splitter sid p s d z) (idOf p) (reclaim p) =
        CDockLayoutItem.splitter sid (reclaim p) s d z := by
      rw [substFirst_splitter_primary hnesidp (by rw [findLayoutItem_idOf]; rfl),
        substFirst_idOf]
    have hR1 : (if p.isSplitter then occupyFreeSpace root p else root) =
        substFirst root sid (CDockLayoutItem.splitter sid (reclaim p) s d z) := by
      rw [hA, hA2, hA3]
    -- well-formedness of the intermediate tree
    have hmid_sublist :
        List.Sublist (idsOf (CDockLayoutItem.splitter sid (reclaim p) s d z))
          (idsOf (CDockLayoutItem.splitter sid p s d z)) := by
      simp only [idsOf]
      exact ((reclaim_ids_sublist p).append (List.Sublist.refl _)).cons₂ sid
    have hmidN : (idsOf (CDockLayoutItem.splitter sid (reclaim p) s d z)).Nodup :=
      hmid_sublist.nodup hNt
    have hmid_range : ∀ x ∈ idsOf (CDockLayoutItem.splitter sid (reclaim p) s d z),
        x ∈ idsOf (CDockLayoutItem.splitter sid p s d z) ∨ ¬ x ∈ idsOf root :=
      fun x hx => Or.inl (hmid_sublist.subset hx)
    obtain ⟨hN1, _⟩ := substFirst_nodup hN hf hmidN hmid_range
    have hf1 : findLayoutItem
        (substFirst root sid (CDockLayoutItem.splitter sid (reclaim p) s d z)) sid =
        some (CDockLayoutItem.splitter sid (reclaim p) s d z) :=
      find_substFirst_same hf rfl
    have hsub1 : Sub (CDockLayoutItem.splitter sid (reclaim p) s d z)
        (substFirst root sid (CDockLayoutItem.splitter sid (reclaim p) s d z)) :=
      sub_substFirst hf
    have hfs1 : findLayoutItem
        (substFirst root sid (CDockLayoutItem.splitter sid (reclaim p) s d z))
        (idOf s) = some s :=
      find_of_sub hN1 (Sub.trans (Sub.inSecondary sid d z (Sub.refl s)) hsub1)
    -- the second recursive call rewrites the secondary subtree in place
    have hC : (if s.isSplitter then
        occupyFreeSpace
          (substFirst root sid (CDockLayoutItem.splitter sid (reclaim p) s d z)) s
        else substFirst root sid (CDockLayoutItem.splitter sid (reclaim p) s d z)) =
        substFirst (substFirst root sid (CDockLayoutItem.splitter sid (reclaim p) s d z))
          (idOf s) (reclaim s) := by
      cases s with
      | panel i2 fs2 =>
        simp only [isSplitter, if_neg]
        rw [reclaim]
        exact (substFirst_self hfs1).symm
      | splitter i2 p2 s2 d2 z2 =>
        simp only [isSplitter, if_pos]
        exact ihs _ hN1 hfs1
    have hD2 : substFirst (CDockLayoutItem.splitter sid (reclaim p) s d z)
        (idOf s) (reclaim s) =
        CDockLayoutItem.splitter sid (reclaim p) (reclaim s) d z := by
      have hnone : findLayoutItem (reclaim p) (idOf s) = none := by
        rw [findLayoutItem_eq_none_iff]
        exact fun hm =>
          hdisj ((reclaim_ids_sublist p).subset hm) (idOf_mem_idsOf s)
      rw [substFirst_splitter_secondary hnesids hnone
        (by rw [findLayoutItem_idOf]; rfl), substFirst_idOf]
    have hD : substFirst (substFirst root sid (CDockLayoutItem.splitter sid (reclaim p) s d z))
        (idOf s) (reclaim s) =
        substFirst root sid (CDockLayoutItem.splitter sid (reclaim p) (reclaim s) d z) := by
      rw [substFirst_through hN1 hf1 (by
        simp only [idsOf, List.mem_cons, List.mem_append]
        exact Or.inr (Or.inr (idOf_mem_idsOf s))), hD2]
      exact substFirst_substFirst hf rfl
    have hf2 : findLayoutItem
        (substFirst root sid (CDockLayoutItem.splitter sid (reclaim p) (reclaim s) d z)) sid =
        some (CDockLayoutItem.splitter sid (reclaim p) (reclaim s) d z) :=
      find_substFirst_same hf rfl
    -- assemble
    rw [occupyFreeSpace]
    simp only [hR1, hC, hD, hf2]
    rw [reclaim]
    by_cases hp2 : (reclaim p).isEmptyPanel
    · simp only [hp2, if_true, replaceItem, hf2]
      exact substFirst_substFirst hf rfl
    · by_cases hs2 : (reclaim s).isEmptyPanel
      · simp only [hp2, hs2, if_false, if_true, replaceItem, hf2]
        exact substFirst_substFirst hf rfl
      · simp [hp2, hs2]

end Doclab

namespace Doclab

open CDockLayoutItem

/-- on a unique-id tree a full reclamation pass started at the root equals
the pure structural collapse. -/
theorem occupyFreeSpace_self {t : CDockLayoutItem} (hN : (idsOf t).Nodup) :
    occupyFreeSpace t t = reclaim t := by
  rw [occupyFreeSpace_eq_reclaim t t hN (findLayoutItem_idOf t), substFirst_idOf]

theorem findForm_some {t : CDockLayoutItem} {fid : NodeId} {f : CDockForm}
    {u : CDockLayoutItem} (h : findForm t fid = some (f, u)) :
    ∃ pid fs, u = .panel pid fs ∧ Sub u t ∧
      fs.find? (fun g => decide (g.id = fid)) = some f := by
  induction t with
  | panel pid fs =>
    simp only [findForm] at h
    cases hq : fs.find? (fun g => decide (g.id = fid)) with
    | none => rw [hq] at h; cases h
    | some f2 =>
      rw [hq] at h
      injection h with h2
      injection h2 with h3 h4
      subst h3; subst h4
      exact ⟨pid, fs, rfl, Sub.refl _, hq⟩
  | splitter sid p s d z ihp ihs =>
    simp only [findForm] at h
    cases hq : findForm p fid with
    | some r =>
      rw [hq] at h
      injection h with h2
      subst h2
      obtain ⟨pid, fs, he, hsub, hfind⟩ := ihp hq
      exact ⟨pid, fs, he, Sub.inPrimary _ _ _ hsub, hfind⟩
    | none =>
      rw [hq] at h
      obtain ⟨pid, fs, he, hsub, hfind⟩ := ihs h
      exact ⟨pid, fs, he, Sub.inSecondary _ _ _ hsub, hfind⟩

theorem nodup_noTwinB {t : CDockLayoutItem} (hN : (idsOf t).Nodup) :
    noTwinB t = true := by
  induction t with
  | panel i fs => simp [noTwinB]
  | splitter i p s d z ihp ihs =>
    have hN' := hN
    simp only [idsOf, List.nodup_cons, List.nodup_append, List.mem_append] at hN'
    obtain ⟨hsid, hNp, hNs, hdisj⟩ := hN'
    simp only [noTwinB, Bool.and_eq_true, decide_eq_true_eq]
    exact ⟨⟨fun he => hdisj (he ▸ idOf_mem_idsOf p) (idOf_mem_idsOf s), ihp hNp⟩,
      ihs hNs⟩

/-- a call of the store API as the invariant check of §8 quantifies over
them: a `split` with its direction, or a `stack`. -/
inductive DockCall where
  | split (formId destPanelId : NodeId) (direction : DockLayoutDirection)
  | stack (formId panelId : NodeId)
deriving DecidableEq, Repr

/-- the id resolves to a panel of the tree. -/
def isPanelAt (t : CDockLayoutItem) (i : NodeId) : Bool :=
  match findLayoutItem t i with
  | some (.panel _ _) => true
  | _ => false

/-- the call's form id resolves somewhere in the tree and its destination
id resolves to a panel. -/
def validCall (st : DockState) : DockCall → Bool
  | .split fid did _ => (findForm st.layout fid).isSome && isPanelAt st.layout did
  | .stack fid did => (findForm st.layout fid).isSome && isPanelAt st.layout did

/-- one call of the store API. -/
def stepCall (st : DockState) : DockCall → Option DockState
  | .split fid did d => some (split st fid did d)
  | .stack fid did => stack st fid did

/-- runs a sequence of calls, refusing any call whose ids do not resolve
(form id somewhere in the tree, destination id at a panel). -/
def applySeq (st : DockState) : List DockCall → Option DockState
  | [] => some st
  | c :: cs =>
    if validCall st c then
      match stepCall st c with
      | some st2 => applySeq st2 cs
      | none => none
    else none

/-- the tree invariants of the claim: unique node ids, no splitter with two
identical child ids, and no empty panel anywhere except a root-only panel. -/
def LayoutInv (t : CDockLayoutItem) : Prop :=
  (idsOf t).Nodup ∧ noTwinB t = true ∧ goodB t = true

instance (t : CDockLayoutItem) : Decidable (LayoutInv t) := by
  unfold LayoutInv; infer_instance

/-- the store invariant: the tree invariants plus the counter dominating
every allocated node id (freshness of future ids). -/
def StateInv (st : DockState) : Prop :=
  (idsOf st.layout).Nodup ∧ goodB st.layout = true ∧
    ∀ i ∈ idsOf st.layout, i.num ≤ st.counter

instance (st : DockState) : Decidable (StateInv st) := by
  unfold StateInv; infer_instance

theorem isPanelAt_some {t : CDockLayoutItem} {i : NodeId}
    (h : isPanelAt t i = true) :
    ∃ gs, findLayoutItem t i = some (.panel i gs) := by
  unfold isPanelAt at h
  cases hq : findLayoutItem t i with
  | none => rw [hq] at h; cases h
  | some u =>
    cases u with
    | panel j gs =>
      have hj : j = i := findLayoutItem_some_id hq
      subst hj
      exact ⟨gs, rfl⟩
    | splitter j p s d z => rw [hq] at h; cases h

end Doclab

namespace Doclab

open CDockLayoutItem

/-- unfolding of `split` in the successful case: form found in panel
`pid`, guard not taken, destination resolving (in the spliced tree) to a
panel. -/
theorem split_eq_of_found {st : DockState} {fid did : NodeId}
    {d : DockLayoutDirection} {f : CDockForm} {pid : NodeId}
    {fs dfs1 : List CDockForm}
    (hfp : findForm st.layout fid = some (f, .panel pid fs))
    (hguard : ¬ (pid = did ∧ fs.length ≤ 1))
    (hdest1 : findLayoutItem
        (substFirst st.layout pid
          (.panel pid (fs.eraseP (fun g => decide (g.id = fid))))) did =
        some (.panel did dfs1)) :
    split st fid did d =
      ⟨occupyFreeSpace
        (substFirst
          (substFirst st.layout pid
            (.panel pid (fs.eraseP (fun g => decide (g.id = fid))))) did
          (.splitter ⟨.dms, st.counter + 2⟩ (.panel did dfs1)
            (.panel ⟨.dmp, st.counter + 1⟩ [f]) d 50))
        (substFirst
          (substFirst st.layout pid
            (.panel pid (fs.eraseP (fun g => decide (g.id = fid))))) did
          (.splitter ⟨.dms, st.counter + 2⟩ (.panel did dfs1)
            (.panel ⟨.dmp, st.counter + 1⟩ [f]) d 50)),
        st.counter + 2⟩ := by
  simp only [split, hfp, idOf, formsOf, erasePanelForm, hashId]
  rw [if_neg hguard]
  simp only [hdest1]

end Doclab

namespace Doclab

open CDockLayoutItem

theorem split_preserves {st : DockState} {fid did : NodeId}
    {d : DockLayoutDirection} (hI : StateInv st)
    (hfS : (findForm st.layout fid).isSome = true)
    (hdP : isPanelAt st.layout did = true) :
    StateInv (split st fid did d) := by
  obtain ⟨hN, hG, hB⟩ := hI
  rw [Option.isSome_iff_exists] at hfS
  obtain ⟨⟨f, p⟩, hfp⟩ := hfS
  obtain ⟨pid, fs, rfl, hsubp, hfind⟩ := findForm_some hfp
  obtain ⟨dfs, hdfind⟩ := isPanelAt_some hdP
  by_cases hguard : pid = did ∧ fs.length ≤ 1
  · have hns : split st fid did d = st := by
      simp only [split, hfp, idOf, formsOf]
      rw [if_pos hguard]
    rw [hns]
    exact ⟨hN, hG, hB⟩
  · have hfpid : findLayoutItem st.layout pid = some (.panel pid fs) := by
      have h0 := find_of_sub hN hsubp
      simpa [idOf] using h0
    have hids1 : idsOf (substFirst st.layout pid
        (.panel pid (fs.eraseP (fun g => decide (g.id = fid))))) =
        idsOf st.layout :=
      substFirst_ids_eq hfpid (by simp [idsOf])
    have hN1 : (idsOf (substFirst st.layout pid
        (.panel pid (fs.eraseP (fun g => decide (g.id = fid)))))).Nodup := by
      rw [hids1]; exact hN
    have hdest1 : ∃ dfs1, findLayoutItem
        (substFirst st.layout pid
          (.panel pid (fs.eraseP (fun g => decide (g.id = fid))))) did =
        some (.panel did dfs1) := by
      by_cases hdid : did = pid
      · subst hdid
        exact ⟨fs.eraseP (fun g => decide (g.id = fid)),
          find_substFirst_same hfpid rfl⟩
      · exact ⟨dfs, find_substFirst_panel hfpid hdid hdfind⟩
    obtain ⟨dfs1, hdest1⟩ := hdest1
    rw [split_eq_of_found hfp hguard hdest1]
    have hBL1 : ∀ i ∈ idsOf (substFirst st.layout pid
        (.panel pid (fs.eraseP (fun g => decide (g.id = fid))))),
        i.num ≤ st.counter := by
      rw [hids1]; exact hB
    have hdmem : did ∈ idsOf (substFirst st.layout pid
        (.panel pid (fs.eraseP (fun g => decide (g.id = fid))))) := by
      rw [← findLayoutItem_isSome_iff, hdest1]; rfl
    have hdnum : did.num ≤ st.counter := hBL1 did hdmem
    have hVN : (idsOf (CDockLayoutItem.splitter ⟨.dms, st.counter + 2⟩
        (.panel did dfs1) (.panel ⟨.dmp, st.counter + 1⟩ [f]) d 50)).Nodup := by
      simp only [idsOf, List.cons_append, List.nil_append, List.nodup_cons,
        List.mem_cons, List.mem_singleton, List.not_mem_nil, List.nodup_nil]
      refine ⟨?_, ?_, by simp⟩
      · rintro (he | he | he)
        · have := congrArg NodeId.num he; simp at this; omega
        · have := congrArg NodeId.kind he; simp at this
        · exact he.elim
      · rintro (he | he)
        · have := congrArg NodeId.num he; simp at this; omega
        · exact he.elim
    have hVrange : ∀ x ∈ idsOf (CDockLayoutItem.splitter ⟨.dms, st.counter + 2⟩
        (.panel did dfs1) (.panel ⟨.dmp, st.counter + 1⟩ [f]) d 50),
        x ∈ idsOf (CDockLayoutItem.panel did dfs1) ∨
          ¬ x ∈ idsOf (substFirst st.layout pid
            (.panel pid (fs.eraseP (fun g => decide (g.id = fid))))) := by
      intro x hx
      simp only [idsOf, List.cons_append, List.nil_append, List.mem_cons,
        List.mem_singleton, List.not_mem_nil] at hx
      rcases hx with rfl | rfl | rfl | hx
      · refine Or.inr fun hm => ?_
        have := hBL1 _ hm
        simp at this
      · exact Or.inl (by simp [idsOf])
      · refine Or.inr fun hm => ?_
        have := hBL1 _ hm
        simp at this
      · exact hx.elim
    obtain ⟨hN2, hR2⟩ := substFirst_nodup hN1 hdest1 hVN hVrange
    rw [occupyFreeSpace_self hN2]
    refine ⟨reclaim_nodup hN2, goodB_reclaim _, ?_⟩
    intro i hi
    show i.num ≤ st.counter + 2
    have hi2 := (reclaim_ids_sublist _).subset hi
    rcases hR2 i hi2 with h1 | h2
    · have := hBL1 i h1; omega
    · simp only [idsOf, List.cons_append, List.nil_append, List.mem_cons,
        List.mem_singleton, List.not_mem_nil] at h2
      rcases h2 with rfl | rfl | rfl | h2
      · simp
      · omega
      · simp
      · exact h2.elim

end Doclab

namespace Doclab

open CDockLayoutItem

/-- unfolding of `stack` in the successful case: form found in panel
`pid`, destination resolving (in the spliced tree) to a panel. -/
theorem stack_eq_of_found {st : DockState} {fid did : NodeId} {f : CDockForm}
    {pid : NodeId} {fs dfs1 : List CDockForm}
    (hfp : findForm st.layout fid = some (f, .panel pid fs))
    (hdest1 : findLayoutItem
        (substFirst st.layout pid
          (.panel pid (fs.eraseP (fun g => decide (g.id = fid))))) did =
        some (.panel did dfs1)) :
    stack st fid did =
      some ⟨occupyFreeSpace
        (substFirst
          (substFirst st.layout pid
            (.panel pid (fs.eraseP (fun g => decide (g.id = fid))))) did
          (.panel did (dfs1 ++ [f])))
        (substFirst
          (substFirst st.layout pid
            (.panel pid (fs.eraseP (fun g => decide (g.id = fid))))) did
          (.panel did (dfs1 ++ [f]))),
        st.counter⟩ := by
  simp only [stack, hfp, idOf, erasePanelForm, hdest1]

theorem stack_preserves {st : DockState} {fid did : NodeId} (hI : StateInv st)
    (hfS : (findForm st.layout fid).isSome = true)
    (hdP : isPanelAt st.layout did = true) :
    ∃ st2, stack st fid did = some st2 ∧ StateInv st2 := by
  obtain ⟨hN, hG, hB⟩ := hI
  rw [Option.isSome_iff_exists] at hfS
  obtain ⟨⟨f, p⟩, hfp⟩ := hfS
  obtain ⟨pid, fs, rfl, hsubp, hfind⟩ := findForm_some hfp
  obtain ⟨dfs, hdfind⟩ := isPanelAt_some hdP
  have hfpid : findLayoutItem st.layout pid = some (.panel pid fs) := by
    have h0 := find_of_sub hN hsubp
    simpa [idOf] using h0
  have hids1 : idsOf (substFirst st.layout pid
      (.panel pid (fs.eraseP (fun g => decide (g.id = fid))))) =
      idsOf st.layout :=
    substFirst_ids_eq hfpid (by simp [idsOf])
  have hN1 : (idsOf (substFirst st.layout pid
      (.panel pid (fs.eraseP (fun g => decide (g.id = fid)))))).Nodup := by
    rw [hids1]; exact hN
  have hdest1 : ∃ dfs1, findLayoutItem
      (substFirst st.layout pid
        (.panel pid (fs.eraseP (fun g => decide (g.id = fid))))) did =
      some (.panel did dfs1) := by
    by_cases hdid : did = pid
    · subst hdid
      exact ⟨fs.eraseP (fun g => decide (g.id = fid)),
        find_substFirst_same hfpid rfl⟩
    · exact ⟨dfs, find_substFirst_panel hfpid hdid hdfind⟩
  obtain ⟨dfs1, hdest1⟩ := hdest1
  have hids2 : idsOf (substFirst
      (substFirst st.layout pid
        (.panel pid (fs.eraseP (fun g => decide (g.id = fid))))) did
      (.panel did (dfs1 ++ [f]))) =
      idsOf (substFirst st.layout pid
        (.panel pid (fs.eraseP (fun g => decide (g.id = fid))))) :=
    substFirst_ids_eq hdest1 (by simp [idsOf])
  have hN2 : (idsOf (substFirst
      (substFirst st.layout pid
        (.panel pid (fs.eraseP (fun g => decide (g.id = fid))))) did
      (.panel did (dfs1 ++ [f])))).Nodup := by
    rw [hids2]; exact hN1
  refine ⟨_, stack_eq_of_found hfp hdest1, ?_⟩
  rw [occupyFreeSpace_self hN2]
  refine ⟨reclaim_nodup hN2, goodB_reclaim _, ?_⟩
  intro i hi
  show i.num ≤ st.counter
  have hi2 := (reclaim_ids_sublist _).subset hi
  rw [hids2, hids1] at hi2
  exact hB i hi2

theorem stepCall_preserves {st : DockState} {c : DockCall}
    (hI : StateInv st) (hv : validCall st c = true) :
    ∃ st2, stepCall st c = some st2 ∧ StateInv st2 := by
  cases c with
  | split fid did d =>
    simp only [validCall, Bool.and_eq_true] at hv
    exact ⟨_, rfl, split_preserves hI hv.1 hv.2⟩
  | stack fid did =>
    simp only [validCall, Bool.and_eq_true] at hv
    exact stack_preserves hI hv.1 hv.2

theorem applySeq_preserves {cs : List DockCall} : ∀ {st st2 : DockState},
    StateInv st → applySeq st cs = some st2 → StateInv st2 := by
  induction cs with
  | nil =>
    intro st st2 hI h
    simp only [applySeq] at h
    injection h with h2
    rw [← h2]
    exact hI
  | cons c cs ih =>
    intro st st2 hI h
    simp only [applySeq] at h
    by_cases hv : validCall st c = true
    · rw [if_pos hv] at h
      obtain ⟨st1, hstep, hI1⟩ := stepCall_preserves hI hv
      rw [hstep] at h
      exact ih hI1 h
    · rw [if_neg hv] at h
      cases h

end Doclab

namespace Doclab

open CDockLayoutItem

theorem find?_perm_eraseP {l : List CDockForm} {q : CDockForm → Bool}
    {a : CDockForm} (h : l.find? q = some a) :
    l.Perm (a :: l.eraseP q) := by
  induction l with
  | nil => cases h
  | cons b l ih =>
    by_cases hb : q b = true
    · rw [List.find?_cons_of_pos _ hb] at h
      injection h with h2
      subst h2
      rw [List.eraseP_cons_of_pos hb]
    · rw [List.find?_cons_of_neg _ hb] at h
      rw [List.eraseP_cons_of_neg hb]
      exact ((ih h).cons b).trans (List.Perm.swap _ _ _)

/-- the flat form list of a tree splits around any located node, and a
substitution at that node rewrites exactly the middle segment. -/
theorem formsFlat_substFirst {t u : CDockLayoutItem} {i : NodeId}
    (h : findLayoutItem t i = some u) :
    ∃ pre post, formsFlat t = pre ++ (formsFlat u ++ post) ∧
      ∀ v, formsFlat (substFirst t i v) = pre ++ (formsFlat v ++ post) := by
  induction t with
  | panel pid fs =>
    by_cases hpi : pid = i
    · simp only [findLayoutItem, if_pos hpi] at h
      have hu : u = CDockLayoutItem.panel pid fs := (Option.some_inj.mp h).symm
      subst hu
      refine ⟨[], [], by simp, ?_⟩
      intro v
      simp [substFirst, hpi]
    · simp [findLayoutItem, hpi] at h
  | splitter sid p s d z ihp ihs =>
    rcases findLayoutItem_splitter_cases h with ⟨he, hu⟩ | ⟨he, hp⟩ | ⟨he, hp, hs⟩
    · subst hu
      refine ⟨[], [], by simp, ?_⟩
      intro v
      have h1 : substFirst (CDockLayoutItem.splitter sid p s d z) i v = v := by
        simp [substFirst, he]
      rw [h1]
      simp
    · obtain ⟨pre, post, hflat, hsubst⟩ := ihp hp
      refine ⟨pre, post ++ formsFlat s, ?_, ?_⟩
      · simp [formsFlat, hflat]
      · intro v
        rw [substFirst_splitter_primary he (by simp [hp])]
        simp [formsFlat, hsubst v]
    · obtain ⟨pre, post, hflat, hsubst⟩ := ihs hs
      refine ⟨formsFlat p ++ pre, post, ?_, ?_⟩
      · simp [formsFlat, hflat]
      · intro v
        rw [substFirst_splitter_secondary he hp (by simp [hs])]
        simp [formsFlat, hsubst v]

end Doclab

namespace Doclab

open CDockLayoutItem

/-- a sample form `dmf-2`. -/
def sampleForm1 : CDockForm := ⟨⟨.dmf, 2⟩, "F1"⟩

/-- a sample store state: a single root panel `dmp-1` holding `dmf-2`. -/
def sampleState1 : DockState := ⟨.panel ⟨.dmp, 1⟩ [sampleForm1], 2⟩

/-- a sample tree: a splitter over a one-form panel and an empty panel. -/
def sampleTree : CDockLayoutItem :=
  .splitter ⟨.dms, 4⟩ (.panel ⟨.dmp, 1⟩ [sampleForm1])
    (.panel ⟨.dmp, 3⟩ []) .Horizontal 50

/-- C5: free-space reclamation is idempotent: for every tree of the data
model (unique node ids, invariant 2), running `_occupyFreeSpace` on the
result of a previous run returns a structurally identical tree. -/
theorem reclamation_idempotent (t : CDockLayoutItem)
    (hN : (idsOf t).Nodup) :
    occupyFreeSpace (occupyFreeSpace t t) (occupyFreeSpace t t) =
      occupyFreeSpace t t := by
  rw [occupyFreeSpace_self hN, occupyFreeSpace_self (reclaim_nodup hN),
    reclaim_eq_self (goodB_reclaim t)]

/-- C5 witness: idempotence at a concrete tree with an empty panel. -/
theorem reclamation_idempotent_witness :
    (idsOf sampleTree).Nodup ∧
      occupyFreeSpace (occupyFreeSpace sampleTree sampleTree)
        (occupyFreeSpace sampleTree sampleTree) =
        occupyFreeSpace sampleTree sampleTree :=
  ⟨by decide, reclamation_idempotent sampleTree (by decide)⟩

/-- C6: a splitter both of whose children are panels with zero forms is
collapsed by the reclamation pass into its secondary child: the
primary-empty branch is checked first and promotes the secondary sibling,
deterministically, whatever the ids, direction and size are. -/
theorem reclaim_both_empty_promotes_secondary (sid a b : NodeId)
    (d : DockLayoutDirection) (z : Nat) :
    occupyFreeSpace (.splitter sid (.panel a []) (.panel b []) d z)
      (.splitter sid (.panel a []) (.panel b []) d z) = .panel b [] := by
  simp [occupyFreeSpace, findLayoutItem, isSplitter, isEmptyPanel,
    replaceItem, substFirst]

/-- C10: the reclamation pass preserves every form: the flat list of forms
in traversal order is unchanged (hence so is the multiset), and every panel
of the result occurs verbatim — same id, same ordered form list — in the
input: the pass removes only splitters and empty panels, never forms. -/
theorem reclamation_preserves_forms (t : CDockLayoutItem)
    (hN : (idsOf t).Nodup) :
    formsFlat (occupyFreeSpace t t) = formsFlat t ∧
      ∀ x ∈ panelsOf (occupyFreeSpace t t), x ∈ panelsOf t := by
  rw [occupyFreeSpace_self hN]
  exact ⟨reclaim_formsFlat t, reclaim_panelsOf_subset t⟩

/-- C10 witness: form preservation at a concrete tree. -/
theorem reclamation_preserves_forms_witness :
    (idsOf sampleTree).Nodup ∧
      (formsFlat (occupyFreeSpace sampleTree sampleTree) = formsFlat sampleTree ∧
        ∀ x ∈ panelsOf (occupyFreeSpace sampleTree sampleTree),
          x ∈ panelsOf sampleTree) :=
  ⟨by decide, reclamation_preserves_forms sampleTree (by decide)⟩

/-- C3: when the panel owning form `F` is the destination panel itself and
holds exactly that one form, `split` is a guarded no-op: the store state
(tree and counter alike) is returned unchanged and no error occurs. -/
theorem split_single_form_self_noop (st : DockState) (F : CDockForm)
    (did : NodeId) (d : DockLayoutDirection)
    (h : findForm st.layout F.id = some (F, .panel did [F])) :
    split st F.id did d = st := by
  simp [split, h, idOf, formsOf]

/-- C3 witness: the guarded self-split no-op at a concrete one-form root
panel. -/
theorem split_single_form_self_noop_witness :
    findForm sampleState1.layout sampleForm1.id =
      some (sampleForm1, .panel ⟨.dmp, 1⟩ [sampleForm1]) ∧
    split sampleState1 sampleForm1.id ⟨.dmp, 1⟩ .Horizontal = sampleState1 :=
  ⟨by decide, split_single_form_self_noop sampleState1 sampleForm1 ⟨.dmp, 1⟩
    .Horizontal (by decide)⟩

end Doclab

namespace Doclab

open CDockLayoutItem

/-- C2: from any store state satisfying the data-model invariants, every
sequence of `split`/`stack` calls whose form ids resolve and whose
destination ids resolve to panels keeps the tree invariants: unique node
ids, no splitter whose two children share an id, and no empty panel except
a sole root panel.  `applySeq` refuses non-resolving calls, and every
prefix of a valid sequence is itself a valid sequence, so the conclusion
holds after each call of the sequence. -/
theorem valid_sequences_preserve_invariants (st : DockState)
    (cs : List DockCall) (st2 : DockState) (hI : StateInv st)
    (h : applySeq st cs = some st2) : LayoutInv st2.layout := by
  obtain ⟨hN, hG, _⟩ := applySeq_preserves hI h
  exact ⟨hN, nodup_noTwinB hN, hG⟩

/-- C2 witness: a concrete valid `stack` call (re-stacking the only form
onto its own panel) preserves the invariants. -/
theorem valid_sequences_preserve_invariants_witness :
    StateInv sampleState1 ∧
      applySeq sampleState1 [DockCall.stack ⟨.dmf, 2⟩ ⟨.dmp, 1⟩] =
        some sampleState1 ∧
      LayoutInv sampleState1.layout :=
  ⟨by decide, by decide,
    valid_sequences_preserve_invariants sampleState1
      [DockCall.stack ⟨.dmf, 2⟩ ⟨.dmp, 1⟩] sampleState1 (by decide) (by decide)⟩

/-- C9 counterexample: a `split` whose form id resolves nowhere returns the
store state structurally unchanged and reports nothing — the return type of
`split` (and `stack`) carries no error value at all, so the failure IS a
silent no-op, contradicting the claim that `FormNotFound` is reported to
the caller as a typed failure and that no failure is a silent no-op. -/
theorem missing_form_silent_noop_counterexample :
    split sampleState1 ⟨.dmf, 99⟩ ⟨.dmp, 1⟩ .Horizontal = sampleState1 ∧
      stack sampleState1 ⟨.dmf, 99⟩ ⟨.dmp, 1⟩ = some sampleState1 := by
  decide

/-- C9 amended: the engine defines no error values: a call to `split` or
`stack` whose form id does not resolve anywhere is a silent no-op (the tree
is returned unchanged and nothing is reported); a non-resolving destination
id is likewise unreported (and, after a successful form lookup, is not even
a no-op: the form has already been removed). -/
theorem missing_form_ids_are_silent_noops (st : DockState)
    (fid did : NodeId) (d : DockLayoutDirection)
    (h : findForm st.layout fid = none) :
    split st fid did d = st ∧ stack st fid did = some st := by
  constructor
  · simp only [split, h]
  · simp only [stack, h]

/-- C9 amended witness: the silent no-op at a concrete state and a form id
that resolves nowhere. -/
theorem missing_form_ids_are_silent_noops_witness :
    findForm sampleState1.layout ⟨.dmf, 77⟩ = none ∧
      (split sampleState1 ⟨.dmf, 77⟩ ⟨.dmp, 1⟩ .Vertical = sampleState1 ∧
        stack sampleState1 ⟨.dmf, 77⟩ ⟨.dmp, 1⟩ = some sampleState1) :=
  ⟨by decide, missing_form_ids_are_silent_noops sampleState1 ⟨.dmf, 77⟩
    ⟨.dmp, 1⟩ .Vertical (by decide)⟩

/-- C1: evaluation at the failing input: `stack` on the one-form root panel
`dmp-1` with a destination id that resolves nowhere removes form `dmf-2`
from its panel and publishes the modified tree — the tree after the call
differs from the tree before it, so the operation is not atomic on failure:
the form is silently lost. -/
theorem stack_missing_destination_drops_form :
    stack sampleState1 ⟨.dmf, 2⟩ ⟨.dmp, 99⟩ =
      some ⟨.panel ⟨.dmp, 1⟩ [], 2⟩ ∧
      (⟨.panel ⟨.dmp, 1⟩ [], 2⟩ : DockState) ≠ sampleState1 := by
  decide

/-- C4 counterexample: `createSplitter` applied with the same panel as both
children does not fail — it returns a splitter holding that panel twice;
no `InvalidTopology` value exists anywhere in the code. -/
theorem createSplitter_same_child_no_failure :
    createSplitter 1 (.panel ⟨.dmp, 1⟩ []) (.panel ⟨.dmp, 1⟩ []) =
      (.splitter ⟨.dms, 2⟩ (.panel ⟨.dmp, 1⟩ []) (.panel ⟨.dmp, 1⟩ [])
        .Horizontal 50, 2) := by
  decide

/-- C4 amended: `createSplitter` performs no validation: even when
`primary.id == secondary.id` it returns a splitter with a fresh `dms` id
holding both children; no failure is possible. -/
theorem createSplitter_no_validation (c : Nat) (p s : CDockLayoutItem)
    (d : DockLayoutDirection) (z : Nat) (_h : idOf p = idOf s) :
    createSplitter c p s d z = (.splitter ⟨.dms, c + 1⟩ p s d z, c + 1) := rfl

/-- C4 amended witness: the unvalidated splitter at a concrete panel used
as both children. -/
theorem createSplitter_no_validation_witness :
    idOf (.panel ⟨.dmp, 1⟩ [] : CDockLayoutItem) =
      idOf (.panel ⟨.dmp, 1⟩ [] : CDockLayoutItem) ∧
    createSplitter 5 (.panel ⟨.dmp, 1⟩ []) (.panel ⟨.dmp, 1⟩ []) .Vertical 30 =
      (.splitter ⟨.dms, 6⟩ (.panel ⟨.dmp, 1⟩ []) (.panel ⟨.dmp, 1⟩ [])
        .Vertical 30, 6) :=
  ⟨rfl, createSplitter_no_validation 5 (.panel ⟨.dmp, 1⟩ [])
    (.panel ⟨.dmp, 1⟩ []) .Vertical 30 rfl⟩

/-- C8: evaluation at the failing input: `CDockManager.clone` (modelled by
`staticClone`) produces no valid layout node for the concrete one-form
panel `dmp-1` — it returns the parse of the literal string of an empty
object, which has no id, no type and no forms, so nothing of the original
is preserved.  (The hook's `clone`, a JSON round trip, is the identity on
the engine's serializable data.) -/
theorem static_clone_returns_no_copy :
    staticClone (.panel ⟨.dmp, 1⟩ [sampleForm1]) = none := rfl

end Doclab

namespace Doclab

open CDockLayoutItem

/-- C7: on a tree where form `F` resolves (owned by panel `pid`) and the
destination id resolves to panel `did`, `stack` moves `F` to the end of the
destination panel's form list: in the published tree the destination panel
holds its previous forms in unchanged order with `F` appended last (when
the source panel is the destination itself, the previous forms are those
minus the removed occurrence of `F` — a reorder to the end, not an error),
and the flat list of all forms is a permutation of the one before the call
(the form is moved, never duplicated or lost). -/
theorem stack_moves_form_to_destination_end (st : DockState)
    (fid did : NodeId) (F : CDockForm) (pid : NodeId)
    (fs dfs : List CDockForm) (hN : (idsOf st.layout).Nodup)
    (hf : findForm st.layout fid = some (F, .panel pid fs))
    (hd : findLayoutItem st.layout did = some (.panel did dfs)) :
    ∃ st2, stack st fid did = some st2 ∧
      findLayoutItem st2.layout did =
        some (.panel did
          ((if pid = did then fs.eraseP (fun g => decide (g.id = fid)) else dfs)
            ++ [F])) ∧
      (formsFlat st2.layout).Perm (formsFlat st.layout) := by
  obtain ⟨pid', fs', heq, hsubp, hfind⟩ := findForm_some hf
  injection heq with h1 h2
  subst h1
  subst h2
  have hfpid : findLayoutItem st.layout pid = some (.panel pid fs) := by
    have h0 := find_of_sub hN hsubp
    simpa [idOf] using h0
  have hdest1 : findLayoutItem
      (substFirst st.layout pid
        (.panel pid (fs.eraseP (fun g => decide (g.id = fid))))) did =
      some (.panel did
        (if pid = did then fs.eraseP (fun g => decide (g.id = fid)) else dfs)) := by
    by_cases hdid : pid = did
    · subst hdid
      rw [if_pos rfl]
      exact find_substFirst_same hfpid rfl
    · rw [if_neg hdid]
      exact find_substFirst_panel hfpid (fun he => hdid he.symm) hd
  have hids1 : idsOf (substFirst st.layout pid
      (.panel pid (fs.eraseP (fun g => decide (g.id = fid))))) =
      idsOf st.layout :=
    substFirst_ids_eq hfpid (by simp [idsOf])
  have hN1 : (idsOf (substFirst st.layout pid
      (.panel pid (fs.eraseP (fun g => decide (g.id = fid)))))).Nodup := by
    rw [hids1]; exact hN
  have hids2 : idsOf (substFirst
      (substFirst st.layout pid
        (.panel pid (fs.eraseP (fun g => decide (g.id = fid))))) did
      (.panel did
        ((if pid = did then fs.eraseP (fun g => decide (g.id = fid)) else dfs)
          ++ [F]))) =
      idsOf (substFirst st.layout pid
        (.panel pid (fs.eraseP (fun g => decide (g.id = fid))))) :=
    substFirst_ids_eq hdest1 (by simp [idsOf])
  have hN2 : (idsOf (substFirst
      (substFirst st.layout pid
        (.panel pid (fs.eraseP (fun g => decide (g.id = fid))))) did
      (.panel did
        ((if pid = did then fs.eraseP (fun g => decide (g.id = fid)) else dfs)
          ++ [F])))).Nodup := by
    rw [hids2]; exact hN1
  refine ⟨_, stack_eq_of_found hf hdest1, ?_, ?_⟩
  · show findLayoutItem (occupyFreeSpace _ _) did = _
    rw [occupyFreeSpace_self hN2]
    have hsubD : Sub
        (.panel did
          ((if pid = did then fs.eraseP (fun g => decide (g.id = fid)) else dfs)
            ++ [F]))
        (substFirst
          (substFirst st.layout pid
            (.panel pid (fs.eraseP (fun g => decide (g.id = fid))))) did
          (.panel did
            ((if pid = did then fs.eraseP (fun g => decide (g.id = fid)) else dfs)
              ++ [F]))) :=
      sub_substFirst hdest1
    have hsubD2 := reclaim_sub_panel hsubD (by simp)
    have h0 := find_of_sub (reclaim_nodup hN2) hsubD2
    simpa [idOf] using h0
  · show (formsFlat (occupyFreeSpace _ _)).Perm (formsFlat st.layout)
    rw [occupyFreeSpace_self hN2, reclaim_formsFlat]
    obtain ⟨pre, post, hflat, hsub⟩ := formsFlat_substFirst hfpid
    obtain ⟨pre2, post2, hflat2, hsub2⟩ := formsFlat_substFirst hdest1
    simp only [formsFlat] at hflat hsub hflat2 hsub2
    have hperm1 : (formsFlat (substFirst
        (substFirst st.layout pid
          (.panel pid (fs.eraseP (fun g => decide (g.id = fid))))) did
        (.panel did
          ((if pid = did then fs.eraseP (fun g => decide (g.id = fid)) else dfs)
            ++ [F])))).Perm
        (F :: formsFlat (substFirst st.layout pid
          (.panel pid (fs.eraseP (fun g => decide (g.id = fid)))))) := by
      rw [hsub2, hflat2]
      simp only [formsFlat]
      have h3 : pre2 ++
          (((if pid = did then fs.eraseP (fun g => decide (g.id = fid)) else dfs)
            ++ [F]) ++ post2) =
          (pre2 ++ (if pid = did then fs.eraseP (fun g => decide (g.id = fid))
            else dfs)) ++ F :: post2 := by
        simp [List.append_assoc]
      rw [h3]
      have h4 : ((pre2 ++
            (if pid = did then fs.eraseP (fun g => decide (g.id = fid)) else dfs))
            ++ F :: post2).Perm
          (F :: ((pre2 ++
            (if pid = did then fs.eraseP (fun g => decide (g.id = fid)) else dfs))
            ++ post2)) :=
        List.perm_middle
      refine h4.trans ?_
      simp [List.append_assoc]
    have hperm2 : (formsFlat st.layout).Perm
        (F :: formsFlat (substFirst st.layout pid
          (.panel pid (fs.eraseP (fun g => decide (g.id = fid)))))) := by
      rw [hflat, hsub]
      have hfsperm : fs.Perm (F :: fs.eraseP (fun g => decide (g.id = fid))) :=
        find?_perm_eraseP hfind
      have h5 : (pre ++ (fs ++ post)).Perm
          (pre ++ ((F :: fs.eraseP (fun g => decide (g.id = fid))) ++ post)) :=
        (hfsperm.append_right post).append_left pre
      refine h5.trans ?_
      have h6 : pre ++ ((F :: fs.eraseP (fun g => decide (g.id = fid))) ++ post) =
          pre ++ F :: (fs.eraseP (fun g => decide (g.id = fid)) ++ post) := by
        simp
      rw [h6]
      have h7 : (pre ++ F :: (fs.eraseP (fun g => decide (g.id = fid)) ++ post)).Perm
          (F :: (pre ++ (fs.eraseP (fun g => decide (g.id = fid)) ++ post))) :=
        List.perm_middle
      refine h7.trans ?_
      simp [formsFlat, List.append_assoc]
    exact hperm1.trans hperm2.symm

/-- C7 witness: stacking the only form of the primary panel onto the
secondary panel of a concrete splitter appends it after the existing form;
the source panel empties and is reclaimed. -/
theorem stack_moves_form_to_destination_end_witness :
    (idsOf (.splitter ⟨.dms, 5⟩ (.panel ⟨.dmp, 1⟩ [sampleForm1])
        (.panel ⟨.dmp, 4⟩ [⟨⟨.dmf, 3⟩, "F2"⟩]) .Horizontal 50 :
        CDockLayoutItem)).Nodup ∧
    findForm (.splitter ⟨.dms, 5⟩ (.panel ⟨.dmp, 1⟩ [sampleForm1])
        (.panel ⟨.dmp, 4⟩ [⟨⟨.dmf, 3⟩, "F2"⟩]) .Horizontal 50) ⟨.dmf, 2⟩ =
      some (sampleForm1, .panel ⟨.dmp, 1⟩ [sampleForm1]) ∧
    findLayoutItem (.splitter ⟨.dms, 5⟩ (.panel ⟨.dmp, 1⟩ [sampleForm1])
        (.panel ⟨.dmp, 4⟩ [⟨⟨.dmf, 3⟩, "F2"⟩]) .Horizontal 50) ⟨.dmp, 4⟩ =
      some (.panel ⟨.dmp, 4⟩ [⟨⟨.dmf, 3⟩, "F2"⟩]) ∧
    ∃ st2, stack ⟨.splitter ⟨.dms, 5⟩ (.panel ⟨.dmp, 1⟩ [sampleForm1])
        (.panel ⟨.dmp, 4⟩ [⟨⟨.dmf, 3⟩, "F2"⟩]) .Horizontal 50, 5⟩
        ⟨.dmf, 2⟩ ⟨.dmp, 4⟩ = some st2 ∧
      findLayoutItem st2.layout ⟨.dmp, 4⟩ =
        some (.panel ⟨.dmp, 4⟩
          ((if (⟨.dmp, 1⟩ : NodeId) = ⟨.dmp, 4⟩ then
              [sampleForm1].eraseP (fun g => decide (g.id = (⟨.dmf, 2⟩ : NodeId)))
            else [⟨⟨.dmf, 3⟩, "F2"⟩]) ++ [sampleForm1])) ∧
      (formsFlat st2.layout).Perm
        (formsFlat (.splitter ⟨.dms, 5⟩ (.panel ⟨.dmp, 1⟩ [sampleForm1])
          (.panel ⟨.dmp, 4⟩ [⟨⟨.dmf, 3⟩, "F2"⟩]) .Horizontal 50)) :=
  ⟨by decide, by decide, by decide,
    stack_moves_form_to_destination_end
      ⟨.splitter ⟨.dms, 5⟩ (.panel ⟨.dmp, 1⟩ [sampleForm1])
        (.panel ⟨.dmp, 4⟩ [⟨⟨.dmf, 3⟩, "F2"⟩]) .Horizontal 50, 5⟩
      ⟨.dmf, 2⟩ ⟨.dmp, 4⟩ sampleForm1 ⟨.dmp, 1⟩ [sampleForm1]
      [⟨⟨.dmf, 3⟩, "F2"⟩] (by decide) (by decide) (by decide)⟩

end Doclab
